import Mathlib

/-!
Shallow embedding of the impersonation configuration engine of the
`rqeust` repository: the TLS connector configuration steps
(`src/tls/extension.rs`) and the inner request builder / header
finalization (`src/util/client/request.rs`), together with proofs of the
spec's testable properties about them.

Engine calls into boringssl (`set_alpn_protos`, `set_min_proto_version`,
`SSL_add_application_settings`, …) are modelled as state updates on a
record of the connector/connection configuration that always succeed:
the engine is an external collaborator and the source only propagates
its errors unchanged, so the interesting logic — which bytes and fields
are written, and when a step is a no-op — is entirely on our side.
-/

/-- ALPN preference of a profile (`HttpVersionPref` in `client/http`).
The spec calls `All` "Both". -/
inductive HttpVersionPref where
  | Http1
  | Http2
  | All
deriving DecidableEq

/-- The wire protocol versions of the `http` crate's `Version` type
(`HTTP_09 … HTTP_3`); `HTTP_3` is the one not recognized by
`map_version_to_pref`. -/
inductive HttpVersion where
  | HTTP_09
  | HTTP_10
  | HTTP_11
  | HTTP_2
  | HTTP_3
deriving DecidableEq

/-- The four abstract TLS protocol levels (`InnerVersion` in `tls`). -/
inductive InnerVersion where
  | Tls1_0
  | Tls1_1
  | Tls1_2
  | Tls1_3
deriving DecidableEq

/-- Public TLS version wrapper (`Version(InnerVersion)` tuple struct). -/
structure Version where
  inner : InnerVersion
deriving DecidableEq

/-- The engine's concrete protocol identifiers (`boring::ssl::SslVersion`). -/
inductive SslVersion where
  | TLS1
  | TLS1_1
  | TLS1_2
  | TLS1_3
deriving DecidableEq

/-- An X.509 certificate successfully parsed from DER, kept abstract. -/
structure X509 where
  der : Nat
deriving DecidableEq

/-- The verification trust store handed to the engine: the certificates
added with `add_cert`, plus whether `set_default_paths` was invoked on
its builder. -/
structure X509Store where
  certs : List X509
  default_paths : Bool
deriving DecidableEq

/-- State of `boring::ssl::SslConnectorBuilder` as far as the configure
steps touch it. -/
structure SslConnectorBuilder where
  verify_peer : Bool := true
  alpn_protos : List Nat := []
  min_proto_version : Option SslVersion := none
  max_proto_version : Option SslVersion := none
  verify_cert_store : Option X509Store := none
deriving DecidableEq

/-- State of `boring::ssl::ConnectConfiguration` as far as the
per-attempt configure steps touch it: the application-settings entries
added by `SSL_add_application_settings` (ALPN string and its length). -/
structure ConnectConfiguration where
  application_settings : List (String × Nat) := []
deriving DecidableEq

/-- `TlsResult<T>`: `Result<T, ErrorStack>`. -/
abbrev ErrorStack := String

abbrev TlsResult (α : Type) := Except ErrorStack α

/-- `configure_alpn_protos`: writes the fixed ALPN byte string for the
preference (`b"\x08http/1.1"`, `b"\x02h2"`, `b"\x02h2\x08http/1.1"`). -/
def configure_alpn_protos (b : SslConnectorBuilder) (http_version : HttpVersionPref) :
    TlsResult SslConnectorBuilder :=
  match http_version with
  | .Http1 =>
      .ok { b with alpn_protos := [0x08, 0x68, 0x74, 0x74, 0x70, 0x2f, 0x31, 0x2e, 0x31] }
  | .Http2 =>
      .ok { b with alpn_protos := [0x02, 0x68, 0x32] }
  | .All =>
      .ok { b with alpn_protos :=
        [0x02, 0x68, 0x32, 0x08, 0x68, 0x74, 0x74, 0x70, 0x2f, 0x31, 0x2e, 0x31] }

/-- A length-prefixed ALPN protocol identifier as defined in the spec's
wire-format section: the identifier's byte length followed by its ASCII
bytes. -/
def alpnId (s : String) : List Nat :=
  s.length :: s.toList.map Char.toNat

/-- `configure_min_tls_version`: absent bound is a no-op, present bound
is translated to the engine identifier and set. -/
def configure_min_tls_version (b : SslConnectorBuilder) (min_tls_version : Option Version) :
    TlsResult SslConnectorBuilder :=
  match min_tls_version with
  | some version =>
      let ssl_version : SslVersion :=
        match version.inner with
        | .Tls1_0 => .TLS1
        | .Tls1_1 => .TLS1_1
        | .Tls1_2 => .TLS1_2
        | .Tls1_3 => .TLS1_3
      .ok { b with min_proto_version := some ssl_version }
  | none => .ok b

/-- `configure_max_tls_version`: absent bound is a no-op, present bound
is translated to the engine identifier and set. -/
def configure_max_tls_version (b : SslConnectorBuilder) (max_tls_version : Option Version) :
    TlsResult SslConnectorBuilder :=
  match max_tls_version with
  | some version =>
      let ssl_version : SslVersion :=
        match version.inner with
        | .Tls1_0 => .TLS1
        | .Tls1_1 => .TLS1_1
        | .Tls1_2 => .TLS1_2
        | .Tls1_3 => .TLS1_3
      .ok { b with max_proto_version := some ssl_version }
  | none => .ok b

/-- The `InnerVersion → SslVersion` translation table shared by the two
version-setting steps, for stating theorems about them. -/
def version_to_ssl (v : Version) : SslVersion :=
  match v.inner with
  | .Tls1_0 => .TLS1
  | .Tls1_1 => .TLS1_1
  | .Tls1_2 => .TLS1_2
  | .Tls1_3 => .TLS1_3

/-- `configure_add_application_settings`: no-op when `enable` is false,
otherwise adds the application-settings entry for the negotiated ALPN
identifier (`"http/1.1"` with length 8, or `"h2"` with length 2). -/
def configure_add_application_settings (conf : ConnectConfiguration) (enable : Bool)
    (http_version : HttpVersionPref) : TlsResult ConnectConfiguration :=
  if !enable then
    .ok conf
  else
    let p : String × Nat :=
      match http_version with
      | .Http1 => ("http/1.1", 8)
      | .Http2 | .All => ("h2", 2)
    .ok { conf with application_settings := conf.application_settings ++ [p] }

/-- `map_version_to_pref` from `util/client/request.rs`.

Modelled from the spec: the fallback arm calls `HttpVersionPref::default()`
whose `Default` impl (in `client/http`) is not among the excerpted
sources; the spec describes it as "the caller's configured default
preference", so it is taken here as the parameter `dflt`. -/
def map_version_to_pref (dflt : HttpVersionPref) (version : HttpVersion) : HttpVersionPref :=
  match version with
  | .HTTP_11 | .HTTP_10 | .HTTP_09 => .Http1
  | .HTTP_2 => .Http2
  | _ => dflt

/-- `configure_set_verify_cert_store`'s per-certificate loop: walks the
parse results of `X509::from_der` over the cached `LOAD_CERTS` bundle,
collecting successfully parsed certificates (added to the store builder,
counted as valid) and counting parse failures (logged and skipped).
Returns (added certificates, valid_count, invalid_count). -/
def collect_certs : List (Option X509) → List X509 × Nat × Nat
  | [] => ([], 0, 0)
  | some c :: rest =>
      let r := collect_certs rest
      (c :: r.1, r.2.1 + 1, r.2.2)
  | none :: rest =>
      let r := collect_certs rest
      (r.1, r.2.1, r.2.2 + 1)

/-- The verify store built by `configure_set_verify_cert_store`: the
certificates the loop added, with `set_default_paths` invoked exactly
when `valid_count == 0 && invalid_count > 0`. -/
def build_verify_store (load_certs : List (Option X509)) : X509Store :=
  let r := collect_certs load_certs
  if r.2.1 = 0 ∧ 0 < r.2.2 then
    { certs := r.1, default_paths := true }
  else
    { certs := r.1, default_paths := false }

/-- `configure_set_verify_cert_store`: installs the store built from the
process-wide cached native-certificate load. The load itself and DER
parsing are external; their outcome is the `load_certs` parameter, one
entry per certificate in the bundle (`some` = parsed, `none` = parse
failure). -/
def configure_set_verify_cert_store (b : SslConnectorBuilder)
    (load_certs : List (Option X509)) : TlsResult SslConnectorBuilder :=
  .ok { b with verify_cert_store := some (build_verify_store load_certs) }

/-- `http::HeaderName`, case-normalized (lowercased) at construction, so
case-insensitive name matching is plain equality on this type. -/
abbrev HeaderName := String

/-- `http::HeaderValue`, kept as its byte string. -/
abbrev HeaderValue := String

/-- `http::HeaderMap` in iteration order: the ordered list of
(name, value) entries. -/
abbrev HeaderMap := List (HeaderName × HeaderValue)

/-- `http::header::CONTENT_LENGTH`. -/
def CONTENT_LENGTH : HeaderName := "content-length"

/-- Modelled from the spec: the ordered-group pass of
`crate::util::sort_headers` (the function lives in `util/mod.rs`, which
is not among the excerpted sources). For each name of the order list in
turn, emits every header of `h` carrying that name (values as-is,
repeated names kept together), then recurses on the remaining headers so
no header is emitted twice. -/
def orderedHeaders : List HeaderName → HeaderMap → HeaderMap
  | [], _ => []
  | n :: rest, h =>
      h.filter (fun p => p.1 == n) ++ orderedHeaders rest (h.filter (fun p => p.1 != n))

/-- Modelled from the spec: `crate::util::sort_headers` — headers whose
names appear in the canonical order list first, in that list's order,
then the headers not named by the list, in their original relative
order. -/
def sort_headers (headers : HeaderMap) (headers_order : List HeaderName) : HeaderMap :=
  orderedHeaders headers_order headers ++
    headers.filter (fun p => !(headers_order.contains p.1))

/-- Position of the first occurrence of a name in the canonical order
list, for stating "in the list's relative order". -/
def rankIn (order : List HeaderName) (n : HeaderName) : Nat :=
  match order with
  | [] => 0
  | m :: rest => if n = m then 0 else rankIn rest n + 1

/-- The body of a request, abstracted to the only observable request
finalization uses: `http_body::Body::size_hint(body).exact()`. -/
structure RequestBody where
  size_hint_exact : Option Nat

/-- Egress path descriptor (`NetworkScheme`), opaque to the core. -/
structure NetworkScheme where
  tag : Nat := 0
deriving DecidableEq

/-- The finished `InnerRequest`: the built request's pieces that the
embedding tracks, plus the version preference and network scheme. -/
structure InnerRequest where
  headers : HeaderMap
  version_pref : Option HttpVersionPref
  network_scheme : NetworkScheme

/-- `InnerRequestBuilder`: accumulated request state before `body` is
called (method and URI are carried opaquely). -/
structure InnerRequestBuilder where
  method : String := "GET"
  uri : String := ""
  headers : HeaderMap := []
  version_pref : Option HttpVersionPref := none
  network_scheme : NetworkScheme := {}
  headers_order : Option (List HeaderName) := none

/-- `add_content_length_header`: if the body's size hint is exact and no
content-length entry exists, append one with that value
(`headers.entry(CONTENT_LENGTH).or_insert_with(..)`); never overwrite an
existing entry. -/
def add_content_length_header (body : RequestBody) (headers : HeaderMap) : HeaderMap :=
  match body.size_hint_exact with
  | some len =>
      if headers.any (fun p => p.1 == CONTENT_LENGTH) then
        headers
      else
        headers ++ [(CONTENT_LENGTH, toString len)]
  | none => headers

/-- `InnerRequestBuilder::body`: finalizes the request. Only when a
headers-order list is set does it touch the header map — content-length
injection followed by the canonical reorder. -/
def InnerRequestBuilder.body (b : InnerRequestBuilder) (bd : RequestBody) : InnerRequest :=
  let headers :=
    match b.headers_order with
    | some order => sort_headers (add_content_length_header bd b.headers) order
    | none => b.headers
  { headers := headers
    version_pref := b.version_pref
    network_scheme := b.network_scheme }
/-- C1: `configure_alpn_protos` writes exactly the fixed ALPN byte
sequence: `Http1` the single length-prefixed id `0x08 "http/1.1"`,
`Http2` the id `0x02 "h2"`, and `All` ("Both") their concatenation with
the `h2` identifier strictly before `http/1.1`. -/
theorem configure_alpn_protos_fixed_bytes (b : SslConnectorBuilder) :
    configure_alpn_protos b .Http1 = .ok { b with alpn_protos := alpnId "http/1.1" } ∧
    configure_alpn_protos b .Http2 = .ok { b with alpn_protos := alpnId "h2" } ∧
    configure_alpn_protos b .All =
      .ok { b with alpn_protos := alpnId "h2" ++ alpnId "http/1.1" } := by
  have h1 : alpnId "http/1.1" = [0x08, 0x68, 0x74, 0x74, 0x70, 0x2f, 0x31, 0x2e, 0x31] := by
    decide
  have h2 : alpnId "h2" = [0x02, 0x68, 0x32] := by decide
  refine ⟨?_, ?_, ?_⟩ <;> simp [configure_alpn_protos, h1, h2]

/-- C5: `configure_add_application_settings` is a successful no-op when
the profile flag is false; when true it adds the application-settings
value `"h2"` with length 2 for the HTTP/2-preferring preferences
(`Http2` and `All`) and `"http/1.1"` with length 8 for `Http1`. -/
theorem configure_add_application_settings_spec (conf : ConnectConfiguration)
    (pref : HttpVersionPref) :
    configure_add_application_settings conf false pref = .ok conf ∧
    configure_add_application_settings conf true .Http1 =
      .ok { conf with application_settings := conf.application_settings ++ [("http/1.1", 8)] } ∧
    configure_add_application_settings conf true .Http2 =
      .ok { conf with application_settings := conf.application_settings ++ [("h2", 2)] } ∧
    configure_add_application_settings conf true .All =
      .ok { conf with application_settings := conf.application_settings ++ [("h2", 2)] } :=
  ⟨rfl, rfl, rfl, rfl⟩

/-- C6: the min/max version-setting steps leave the builder untouched
when the bound is unset (no hardcoded default is substituted), and when
a bound is set they translate the abstract level via `version_to_ssl`
and apply it to the corresponding engine field. -/
theorem configure_tls_version_bounds (b : SslConnectorBuilder) (v : Version) :
    configure_min_tls_version b none = .ok b ∧
    configure_max_tls_version b none = .ok b ∧
    configure_min_tls_version b (some v) =
      .ok { b with min_proto_version := some (version_to_ssl v) } ∧
    configure_max_tls_version b (some v) =
      .ok { b with max_proto_version := some (version_to_ssl v) } := by
  refine ⟨rfl, rfl, ?_, ?_⟩ <;> cases v with
  | mk inner => cases inner <;> rfl

/-- C7: `map_version_to_pref` sends HTTP versions 0.9, 1.0 and 1.1 to
the HTTP/1 preference, version 2 to the HTTP/2 preference, and every
unrecognized version to the configured default preference. -/
theorem map_version_to_pref_spec (dflt : HttpVersionPref) :
    map_version_to_pref dflt .HTTP_09 = .Http1 ∧
    map_version_to_pref dflt .HTTP_10 = .Http1 ∧
    map_version_to_pref dflt .HTTP_11 = .Http1 ∧
    map_version_to_pref dflt .HTTP_2 = .Http2 ∧
    (∀ v : HttpVersion, v ≠ .HTTP_09 → v ≠ .HTTP_10 → v ≠ .HTTP_11 → v ≠ .HTTP_2 →
      map_version_to_pref dflt v = dflt) := by
  refine ⟨rfl, rfl, rfl, rfl, ?_⟩
  intro v h09 h10 h11 h2
  cases v <;> first | rfl | simp_all

/-- Witness for C7 at the one unrecognized version, `HTTP_3`. -/
theorem map_version_to_pref_spec_witness :
    map_version_to_pref .All .HTTP_3 = .All :=
  (map_version_to_pref_spec .All).2.2.2.2 .HTTP_3
    (by decide) (by decide) (by decide) (by decide)

/-- C4: `configure_set_verify_cert_store` never aborts on per-certificate
parse failures; the built store holds exactly the successfully parsed
certificates; when none parsed but at least one certificate was present
it falls back to the engine's default paths; when at least one parsed,
those certificates are the store and no fallback occurs. -/
theorem configure_set_verify_cert_store_spec (b : SslConnectorBuilder)
    (load_certs : List (Option X509)) :
    configure_set_verify_cert_store b load_certs =
      .ok { b with verify_cert_store := some (build_verify_store load_certs) } ∧
    (build_verify_store load_certs).certs = load_certs.filterMap id ∧
    (load_certs.filterMap id = [] → load_certs ≠ [] →
      (build_verify_store load_certs).default_paths = true) ∧
    (load_certs.filterMap id ≠ [] →
      (build_verify_store load_certs).default_paths = false) := by
  have hc : ∀ l : List (Option X509),
      collect_certs l = (l.filterMap id, (l.filterMap id).length, l.countP Option.isNone) := by
    intro l
    induction l with
    | nil => rfl
    | cons o rest ih =>
        cases o <;> simp [collect_certs, ih, List.countP_cons]
  refine ⟨rfl, ?_, ?_, ?_⟩
  · simp only [build_verify_store, hc]
    split <;> rfl
  · intro hnil hne
    have hall : ∀ a ∈ load_certs, a = none := by
      simpa [List.filterMap_eq_nil_iff] using hnil
    have hcount : load_certs.countP Option.isNone = load_certs.length := by
      refine List.countP_eq_length.mpr ?_
      intro a ha
      simp [hall a ha]
    have hlen : 0 < load_certs.countP Option.isNone := by
      rw [hcount]
      exact List.length_pos.mpr hne
    simp only [build_verify_store, hc, hnil]
    simp [hlen]
  · intro hne
    have hlen : (load_certs.filterMap id).length ≠ 0 :=
      Nat.pos_iff_ne_zero.mp (List.length_pos.mpr hne)
    simp only [build_verify_store, hc]
    simp [hlen]

/-- Witness for C4 at the spec's corrupt-bundle scenario: 0 valid and 3
invalid certificates trigger the default-paths fallback. -/
theorem configure_set_verify_cert_store_spec_witness :
    (build_verify_store [none, none, none]).default_paths = true :=
  (configure_set_verify_cert_store_spec {} [none, none, none]).2.2.1
    (by decide) (by decide)

/-- C10: when no headers-order list is set, `InnerRequestBuilder::body`
leaves the header map entirely unchanged — no content-length injection
even for a body of exactly known length, and no reordering. -/
theorem body_no_headers_order_frame (b : InnerRequestBuilder) (bd : RequestBody)
    (h : b.headers_order = none) :
    (b.body bd).headers = b.headers := by
  simp [InnerRequestBuilder.body, h]

/-- Witness for C10: a builder with a host header, no order list, and a
10-byte body finalizes with its header map untouched. -/
theorem body_no_headers_order_frame_witness :
    (InnerRequestBuilder.body
        { headers := [("host", "example.com")], headers_order := none }
        { size_hint_exact := some 10 }).headers = [("host", "example.com")] :=
  body_no_headers_order_frame
    { headers := [("host", "example.com")], headers_order := none }
    { size_hint_exact := some 10 } rfl

/-- Every header emitted by the ordered-group pass comes from the input
map and carries a name of the order list. -/
theorem mem_orderedHeaders {order : List HeaderName} {h : HeaderMap}
    {p : HeaderName × HeaderValue} (hp : p ∈ orderedHeaders order h) :
    p ∈ h ∧ order.contains p.1 = true := by
  induction order generalizing h with
  | nil => simp [orderedHeaders] at hp
  | cons n rest ih =>
      simp only [orderedHeaders, List.mem_append] at hp
      rcases hp with hp | hp
      · rw [List.mem_filter] at hp
        refine ⟨hp.1, ?_⟩
        rw [List.contains_cons]
        simp [hp.2]
      · obtain ⟨hmem, hname⟩ := ih hp
        rw [List.mem_filter] at hmem
        have hname2 : p.1 ∈ rest := by simpa using hname
        refine ⟨hmem.1, ?_⟩
        rw [List.contains_cons]
        simp [hname2]

/-- The ordered-group pass emits headers in the order list's relative
order: ranks (first positions in the list) are nondecreasing along the
output, which also keeps repeated names contiguous. -/
theorem orderedHeaders_pairwise (order : List HeaderName) (h : HeaderMap) :
    (orderedHeaders order h).Pairwise
      (fun p q => rankIn order p.1 ≤ rankIn order q.1) := by
  induction order generalizing h with
  | nil => simp [orderedHeaders]
  | cons n rest ih =>
      rw [orderedHeaders, List.pairwise_append]
      refine ⟨?_, ?_, ?_⟩
      · rw [List.pairwise_iff_forall_sublist]
        intro a b hs
        have ha : a ∈ h.filter (fun p => p.1 == n) := hs.subset (by simp)
        have ha1 : a.1 = n := by simpa using (List.mem_filter.mp ha).2
        simp [rankIn, ha1]
      · refine List.Pairwise.imp_of_mem ?_ (ih (h.filter (fun p => p.1 != n)))
        intro p q hp hq hr
        have hp1 : ¬p.1 = n := by
          simpa using (List.mem_filter.mp (mem_orderedHeaders hp).1).2
        have hq1 : ¬q.1 = n := by
          simpa using (List.mem_filter.mp (mem_orderedHeaders hq).1).2
        simpa [rankIn, hp1, hq1] using Nat.succ_le_succ hr
      · intro a ha b hb
        have ha1 : a.1 = n := by simpa using (List.mem_filter.mp ha).2
        simp [rankIn, ha1]

/-- `sort_headers` is a permutation of its input: every header of the
map appears exactly once in the reordered output, value untouched. -/
theorem sort_headers_perm (headers : HeaderMap) (order : List HeaderName) :
    (sort_headers headers order).Perm headers := by
  induction order generalizing headers with
  | nil => simp [sort_headers, orderedHeaders]
  | cons n rest ih =>
      have hF : headers.filter (fun p => !((n :: rest).contains p.1)) =
          (headers.filter (fun p => p.1 != n)).filter
            (fun p => !(rest.contains p.1)) := by
        rw [List.filter_filter]
        refine List.filter_congr ?_
        intro a _
        rw [List.contains_cons]
        simp [Bool.not_or, Bool.and_comm, bne]
      rw [sort_headers, orderedHeaders, hF, List.append_assoc]
      refine List.Perm.trans
        (List.Perm.append_left _ (ih (headers.filter (fun p => p.1 != n)))) ?_
      exact List.filter_append_perm (fun p => p.1 == n) headers

/-- Appending headers whose names are outside the order list does not
change the ordered-group pass. -/
theorem orderedHeaders_append_right (order : List HeaderName) (x y : HeaderMap)
    (hy : ∀ p ∈ y, order.contains p.1 = false) :
    orderedHeaders order (x ++ y) = orderedHeaders order x := by
  induction order generalizing x with
  | nil => rfl
  | cons n rest ih =>
      have hyn : ∀ p ∈ y, (p.1 == n) = false ∧ rest.contains p.1 = false := by
        intro p hp
        have := hy p hp
        rw [List.contains_cons] at this
        simpa using this
      rw [orderedHeaders, List.filter_append, List.filter_append]
      have h1 : y.filter (fun p => p.1 == n) = [] := by
        rw [List.filter_eq_nil_iff]
        intro p hp
        simp [(hyn p hp).1]
      have h2 : y.filter (fun p => p.1 != n) = y := by
        rw [List.filter_eq_self]
        intro p hp
        simp [bne, (hyn p hp).1]
      rw [h1, h2, List.append_nil]
      rw [ih (x.filter (fun p => p.1 != n)) (fun p hp => (hyn p hp).2)]
      rfl

/-- The ordered-group pass is idempotent. -/
theorem orderedHeaders_idem (order : List HeaderName) (h : HeaderMap) :
    orderedHeaders order (orderedHeaders order h) = orderedHeaders order h := by
  induction order generalizing h with
  | nil => rfl
  | cons n rest ih =>
      have hA : ∀ p ∈ h.filter (fun p => p.1 == n), (p.1 == n) = true := by
        intro p hp
        exact (List.mem_filter.mp hp).2
      have hT : ∀ p ∈ orderedHeaders rest (h.filter (fun p => p.1 != n)),
          (p.1 == n) = false := by
        intro p hp
        have := (List.mem_filter.mp (mem_orderedHeaders hp).1).2
        simpa [bne] using this
      have hsplit : orderedHeaders (n :: rest) h =
          h.filter (fun p => p.1 == n) ++
            orderedHeaders rest (h.filter (fun p => p.1 != n)) := rfl
      rw [hsplit, orderedHeaders, List.filter_append, List.filter_append]
      have e1 : (h.filter (fun p => p.1 == n)).filter (fun p => p.1 == n) =
          h.filter (fun p => p.1 == n) := List.filter_eq_self.mpr hA
      have e2 : (orderedHeaders rest (h.filter (fun p => p.1 != n))).filter
          (fun p => p.1 == n) = [] := by
        rw [List.filter_eq_nil_iff]
        intro p hp
        simp [hT p hp]
      have e3 : (h.filter (fun p => p.1 == n)).filter (fun p => p.1 != n) = [] := by
        rw [List.filter_eq_nil_iff]
        intro p hp
        simp [bne, hA p hp]
      have e4 : (orderedHeaders rest (h.filter (fun p => p.1 != n))).filter
          (fun p => p.1 != n) = orderedHeaders rest (h.filter (fun p => p.1 != n)) := by
        rw [List.filter_eq_self]
        intro p hp
        simp [bne, hT p hp]
      rw [e1, e2, e3, e4, List.append_nil, List.nil_append, ih]

/-- C2: `sort_headers` emits the headers named by the canonical order
list first (each drawn unchanged from the input map, ranks nondecreasing
along the list, so groups follow the list's relative order with repeated
names contiguous), followed by exactly the headers not named by the
list in their original relative order; the whole output is a permutation
of the input map. -/
theorem sort_headers_ordering (order : List HeaderName) (headers : HeaderMap) :
    sort_headers headers order =
      orderedHeaders order headers ++
        headers.filter (fun p => !(order.contains p.1)) ∧
    (∀ p ∈ orderedHeaders order headers, p ∈ headers ∧ order.contains p.1 = true) ∧
    (orderedHeaders order headers).Pairwise
      (fun p q => rankIn order p.1 ≤ rankIn order q.1) ∧
    (sort_headers headers order).Perm headers :=
  ⟨rfl, fun _ hp => mem_orderedHeaders hp, orderedHeaders_pairwise order headers,
    sort_headers_perm headers order⟩

/-- The spec's §8 scenario order list. -/
def sample_order : List HeaderName := ["host", "user-agent", "accept"]

/-- The spec's §8 scenario caller-supplied headers. -/
def sample_headers : HeaderMap :=
  [("accept", "*/*"), ("x-custom", "1"), ("host", "example.com")]

/-- Witness for C2 at the spec's §8 scenario. -/
theorem sort_headers_ordering_witness :
    ("host", "example.com") ∈ sample_headers ∧
      sample_order.contains "host" = true :=
  (sort_headers_ordering sample_order sample_headers).2.1
    ("host", "example.com") (by decide)

/-- C8: reordering is idempotent — applying `sort_headers` to its own
output (a map already in canonical order) changes nothing, i.e.
applying the ordering twice equals applying it once. -/
theorem sort_headers_idempotent (headers : HeaderMap) (order : List HeaderName) :
    sort_headers (sort_headers headers order) order = sort_headers headers order := by
  have hB : ∀ p ∈ headers.filter (fun p => !(order.contains p.1)),
      order.contains p.1 = false := by
    intro p hp
    have h2 := (List.mem_filter.mp hp).2
    rwa [Bool.not_eq_true'] at h2
  rw [sort_headers]
  have hSA : sort_headers headers order =
      orderedHeaders order headers ++
        headers.filter (fun p => !(order.contains p.1)) := rfl
  rw [hSA,
    orderedHeaders_append_right order (orderedHeaders order headers)
      (headers.filter (fun p => !(order.contains p.1))) hB,
    orderedHeaders_idem, List.filter_append]
  have hA0 : (orderedHeaders order headers).filter
      (fun p => !(order.contains p.1)) = [] := by
    rw [List.filter_eq_nil_iff]
    intro p hp
    have hc := (mem_orderedHeaders hp).2
    simp only [hc, Bool.not_true]
    simp
  have hBB : (headers.filter (fun p => !(order.contains p.1))).filter
      (fun p => !(order.contains p.1)) =
      headers.filter (fun p => !(order.contains p.1)) := by
    rw [List.filter_eq_self]
    intro p hp
    exact (List.mem_filter.mp hp).2
  rw [hA0, hBB, List.nil_append]

/-- A builder with a known-length body, no content-length header, and no
headers-order list: the configuration on which the unconditional
content-length claim fails. -/
def cl_cex_builder : InnerRequestBuilder :=
  { headers := [("host", "example.com")], headers_order := none }

/-- Counterexample to C3 as stated: a request with a body of exactly
known length 10 and no pre-set content-length, but finalized without a
headers-order list, contains no content-length header at all — `body`
only injects it inside the `headers_order` branch. -/
theorem content_length_requires_headers_order_cex :
    ¬ (CONTENT_LENGTH, toString 10) ∈
      (cl_cex_builder.body { size_hint_exact := some 10 }).headers := by
  decide

/-- C3 (amended to requests finalized with a headers-order list): when
the body's exact length is `n` and no content-length header is pre-set,
the finalized map contains a content-length header with value `n`; and
whenever a content-length header was pre-set, finalization keeps its
entries (names and values) unchanged up to the reordering. -/
theorem add_content_length_finalize_spec (b : InnerRequestBuilder)
    (order : List HeaderName) (ho : b.headers_order = some order) :
    (∀ n : Nat, b.headers.any (fun p => p.1 == CONTENT_LENGTH) = false →
      (CONTENT_LENGTH, toString n) ∈
        (b.body { size_hint_exact := some n }).headers) ∧
    (∀ bd : RequestBody, b.headers.any (fun p => p.1 == CONTENT_LENGTH) = true →
      ((b.body bd).headers.filter (fun p => p.1 == CONTENT_LENGTH)).Perm
        (b.headers.filter (fun p => p.1 == CONTENT_LENGTH))) := by
  constructor
  · intro n hcl
    simp only [InnerRequestBuilder.body, ho]
    have hadd : add_content_length_header { size_hint_exact := some n } b.headers =
        b.headers ++ [(CONTENT_LENGTH, toString n)] := by
      simp [add_content_length_header, hcl]
    rw [hadd]
    refine (sort_headers_perm _ order).mem_iff.mpr ?_
    exact List.mem_append_right _ (by simp)
  · intro bd hcl
    have hadd : add_content_length_header bd b.headers = b.headers := by
      cases hbd : bd.size_hint_exact with
      | none => simp [add_content_length_header, hbd]
      | some len => simp [add_content_length_header, hbd, hcl]
    simp only [InnerRequestBuilder.body, ho, hadd]
    exact List.Perm.filter _ (sort_headers_perm b.headers order)

/-- The spec's §8 scenario builder: order list set, three headers, no
content-length. -/
def cl_witness_builder : InnerRequestBuilder :=
  { headers := sample_headers, headers_order := some sample_order }

/-- Witness for amended C3 at the spec's §8 scenario: the 10-byte body
yields a content-length header with value 10. -/
theorem add_content_length_finalize_spec_witness :
    (CONTENT_LENGTH, toString 10) ∈
      (cl_witness_builder.body { size_hint_exact := some 10 }).headers :=
  (add_content_length_finalize_spec cl_witness_builder sample_order rfl).1 10 (by decide)
